import Mathlib

/-!
Verification of the podstats collector (cmd/podstats/main.go).

The Go source is shallowly embedded: the `Reading` value object and its
`Accept` merge, the aggregation table's consumer loop (a channel drain with
a runtime type assertion), the watch-reconnect loop with bookmark resume and
fixed backoff, the list poller, the HTTP exposition handler, and the unused
`render` helper.  The float64 `Value` field is modelled as `ℚ` (the merge and
rendering claims are about which operations are applied to the field, not
about binary rounding); `fmt %f` is modelled as fixed-point formatting with
six decimals and round-half-to-even, which agrees with Go on every value
exactly representable at six decimals.
-/

/-- Go `MetricType` is an integer enumeration (`type MetricType int`);
its zero value `0` is neither of the two declared constants. -/
abbrev MetricType := Int

/-- `Counter MetricType = iota + 1`. -/
def Counter : MetricType := 1

/-- `Instant` follows `Counter` in the iota block. -/
def Instant : MetricType := 2

/-- The `Reading` struct.  Go's `Type` field is named `Typ` here because
`Type` is a Lean keyword; `Value float64` is modelled as `ℚ`. -/
structure Reading where
  Key : String
  Value : ℚ
  Time : String
  Typ : MetricType
deriving DecidableEq

/-- `func (r *Reading) Accept(new *Reading) *Reading`: copy `r`, then
if `new.Type == Counter` add the value and take the new time, else if
`new.Type == Instant` replace the value and take the new time. -/
def Reading.Accept (r : Reading) (n : Reading) : Reading :=
  if n.Typ = Counter then { r with Value := r.Value + n.Value, Time := n.Time }
  else if n.Typ = Instant then { r with Value := n.Value, Time := n.Time }
  else r

/-- Association-list lookup, modelling `val, ok := m.lines[key]`. -/
def getEntry : List (String × Reading) → String → Option Reading
  | [], _ => none
  | (k', v') :: rest, k => if k' = k then some v' else getEntry rest k

/-- Association-list store, modelling `m.lines[key] = v`. -/
def setEntry : List (String × Reading) → String → Reading → List (String × Reading)
  | [], k, v => [(k, v)]
  | (k', v') :: rest, k, v =>
      if k' = k then (k, v) :: rest else (k', v') :: setEntry rest k v

/-- The body of the consumer loop in `NewMetrics`: if an entry for
`reading.Key` exists, store `val.Accept(reading)`, else store `reading`. -/
def applyReading (t : List (String × Reading)) (reading : Reading) : List (String × Reading) :=
  match getEntry t reading.Key with
  | some val => setEntry t reading.Key (val.Accept reading)
  | none => setEntry t reading.Key reading

theorem getEntry_setEntry_self (t : List (String × Reading)) (k : String) (v : Reading) :
    getEntry (setEntry t k v) k = some v := by
  induction t with
  | nil => simp [setEntry, getEntry]
  | cons hd tl ih =>
      obtain ⟨k', v'⟩ := hd
      by_cases h : k' = k
      · simp [setEntry, getEntry, h]
      · simp [setEntry, getEntry, h, ih]

theorem getEntry_setEntry_ne (t : List (String × Reading)) (k k' : String) (v : Reading)
    (h : k ≠ k') : getEntry (setEntry t k v) k' = getEntry t k' := by
  induction t with
  | nil => simp [setEntry, getEntry, h]
  | cons hd tl ih =>
      obtain ⟨k0, v0⟩ := hd
      by_cases h0 : k0 = k
      · subst h0
        simp [setEntry, getEntry, h]
      · simp only [setEntry, if_neg h0]
        by_cases h1 : k0 = k'
        · simp [getEntry, h1]
        · simp [getEntry, h1, ih]

/-- C1: merging an existing reading `R` with an incoming reading `N` keeps
`R`'s `Key` and `Type`; a `Counter` adds its value and takes its time, an
`Instant` replaces the value and takes its time. -/
theorem accept_merge_semantics (r n : Reading) :
    (n.Typ = Counter →
      r.Accept n = { Key := r.Key, Value := r.Value + n.Value, Time := n.Time, Typ := r.Typ })
    ∧ (n.Typ = Instant →
      r.Accept n = { Key := r.Key, Value := n.Value, Time := n.Time, Typ := r.Typ })
    ∧ (r.Accept n).Key = r.Key ∧ (r.Accept n).Typ = r.Typ := by
  refine ⟨fun h => ?_, fun h => ?_, ?_, ?_⟩
  · simp [Reading.Accept, h]
  · have hne : Instant ≠ Counter := by decide
    simp [Reading.Accept, h, hne]
  · unfold Reading.Accept
    split
    · rfl
    · split <;> rfl
  · unfold Reading.Accept
    split
    · rfl
    · split <;> rfl

/-- Concrete check of C1: the mixed examples from the spec
(`Counter 5` then `Instant 3` gives value `3`; `Instant 3` then `Counter 5`
gives value `8`). -/
theorem accept_merge_semantics_witness :
    (Reading.mk "k" 5 "t1" Counter).Accept (Reading.mk "k" 3 "t2" Instant)
        = { Key := "k", Value := 3, Time := "t2", Typ := Counter }
    ∧ (Reading.mk "k" 3 "t1" Instant).Accept (Reading.mk "k" 5 "t2" Counter)
        = { Key := "k", Value := 3 + 5, Time := "t2", Typ := Instant } :=
  ⟨((accept_merge_semantics (Reading.mk "k" 5 "t1" Counter)
      (Reading.mk "k" 3 "t2" Instant)).2.1 (by decide)),
   ((accept_merge_semantics (Reading.mk "k" 3 "t1" Instant)
      (Reading.mk "k" 5 "t2" Counter)).1 (by decide))⟩

/-- C4: an incoming reading whose `Type` is neither `Counter` nor `Instant`
(for instance the zero value `0`) leaves the stored reading unchanged in all
fields: both `if` branches of `Accept` are skipped. -/
theorem accept_unrecognized_type_noop (r n : Reading)
    (hc : n.Typ ≠ Counter) (hi : n.Typ ≠ Instant) : r.Accept n = r := by
  simp [Reading.Accept, hc, hi]

/-- Concrete check of C4 at the zero `MetricType`. -/
theorem accept_unrecognized_type_noop_witness :
    (Reading.mk "k" 5 "t1" Counter).Accept (Reading.mk "k" 3 "t2" 0)
      = Reading.mk "k" 5 "t1" Counter :=
  accept_unrecognized_type_noop _ _ (by decide) (by decide)

/-- C3: a reading for a key with no prior entry is stored verbatim
(no merge is applied, whatever its `Type`), and no other key's entry
changes. -/
theorem first_insert_verbatim (t : List (String × Reading)) (r : Reading)
    (h : getEntry t r.Key = none) :
    applyReading t r = setEntry t r.Key r
    ∧ getEntry (applyReading t r) r.Key = some r
    ∧ ∀ k, k ≠ r.Key → getEntry (applyReading t r) k = getEntry t k := by
  refine ⟨?_, ?_, ?_⟩
  · simp [applyReading, h]
  · simp [applyReading, h, getEntry_setEntry_self]
  · intro k hk
    simp [applyReading, h, getEntry_setEntry_ne t r.Key k r (fun hEq => hk hEq.symm)]

/-- Concrete check of C3: first insert of a zero-typed reading into the
empty table stores it verbatim. -/
theorem first_insert_verbatim_witness :
    applyReading [] (Reading.mk "k" 7 "t0" 0) = [("k", Reading.mk "k" 7 "t0" 0)]
    ∧ getEntry (applyReading [] (Reading.mk "k" 7 "t0" 0)) "k"
        = some (Reading.mk "k" 7 "t0" 0) := by
  have h := first_insert_verbatim [] (Reading.mk "k" 7 "t0" 0) (by decide)
  exact ⟨h.1, h.2.1⟩

/-- A value carried on the `chan interface{}`: a `*Reading`, the nil
interface, or some other non-`*Reading` value. -/
inductive GoValue
  | readingVal (r : Reading)
  | nilVal
  | otherVal (n : Nat)
deriving DecidableEq

/-- One receive `w, ok := <-m.channel`: either a successful receive of a
value (`ok = true`), or the zero-value/`ok = false` pair delivered once the
channel is closed. -/
inductive ChanItem
  | recv (v : GoValue)
  | closedRecv
deriving DecidableEq

/-- How the consumer loop of `NewMetrics` ends on a finite schedule of
receives: still waiting for the next receive (`drained`), exited through the
`break` statement, or crashed on the `w.(*Reading)` type assertion. -/
inductive LoopExit
  | drained
  | broke
  | panicked
deriving DecidableEq

structure LoopResult where
  lines : List (String × Reading)
  exit : LoopExit
deriving DecidableEq

/-- The type assertion `reading := w.(*Reading)`: succeeds only on a
`*Reading` value, panics (here: `none`) on the nil interface or anything
else. -/
def assertReading : GoValue → Option Reading
  | GoValue.readingVal r => some r
  | GoValue.nilVal => none
  | GoValue.otherVal _ => none

/-- The consumer goroutine of `NewMetrics`, faithful to the statement
order of the source: receive `(w, ok)`, run the type assertion, only then
test `!ok`, and finally merge into the map. -/
def consumeLoop (lines : List (String × Reading)) : List ChanItem → LoopResult
  | [] => { lines := lines, exit := LoopExit.drained }
  | item :: rest =>
      let w := match item with
        | ChanItem.recv v => v
        | ChanItem.closedRecv => GoValue.nilVal
      let ok := match item with
        | ChanItem.recv _ => true
        | ChanItem.closedRecv => false
      match assertReading w with
      | none => { lines := lines, exit := LoopExit.panicked }
      | some reading =>
          if !ok then { lines := lines, exit := LoopExit.broke }
          else consumeLoop (applyReading lines reading) rest

/-- A channel item the loop survives: a successful receive of a `*Reading`. -/
def goodItem : ChanItem → Bool
  | ChanItem.recv (GoValue.readingVal _) => true
  | ChanItem.recv GoValue.nilVal => false
  | ChanItem.recv (GoValue.otherVal _) => false
  | ChanItem.closedRecv => false

/-- Wrap a reading as the channel item `m.channel <- reading` produces. -/
def readingItem (r : Reading) : ChanItem := ChanItem.recv (GoValue.readingVal r)

theorem consumeLoop_fold (rs : List Reading) (lines : List (String × Reading)) :
    consumeLoop lines (rs.map readingItem)
      = { lines := rs.foldl applyReading lines, exit := LoopExit.drained } := by
  induction rs generalizing lines with
  | nil => simp [consumeLoop]
  | cons r rest ih => simp [consumeLoop, readingItem, assertReading, ih]

/-- C10: in the consumer loop the type assertion runs before the
channel-closed test, so the `break` branch can never be taken: the loop
never exits via `break`; it panics exactly when some received item is not a
successfully received `*Reading` (the nil value of a closed channel
included); and on schedules where every item is a `*Reading` receive it is
the total left-fold of the merge over the map. -/
theorem consume_break_unreachable (items : List ChanItem) (lines : List (String × Reading)) :
    (consumeLoop lines items).exit ≠ LoopExit.broke
    ∧ ((consumeLoop lines items).exit = LoopExit.panicked
        ↔ ¬ ∀ i ∈ items, goodItem i = true)
    ∧ (∀ rs : List Reading, items = rs.map readingItem →
        consumeLoop lines items
          = { lines := rs.foldl applyReading lines, exit := LoopExit.drained }) := by
  refine ⟨?_, ?_, ?_⟩
  · induction items generalizing lines with
    | nil => simp [consumeLoop]
    | cons item rest ih =>
        match item with
        | ChanItem.recv (GoValue.readingVal r) =>
            simpa [consumeLoop, assertReading] using ih (applyReading lines r)
        | ChanItem.recv GoValue.nilVal => simp [consumeLoop, assertReading]
        | ChanItem.recv (GoValue.otherVal n) => simp [consumeLoop, assertReading]
        | ChanItem.closedRecv => simp [consumeLoop, assertReading]
  · induction items generalizing lines with
    | nil => simp [consumeLoop]
    | cons item rest ih =>
        match item with
        | ChanItem.recv (GoValue.readingVal r) =>
            simpa [consumeLoop, assertReading, goodItem] using ih (applyReading lines r)
        | ChanItem.recv GoValue.nilVal => simp [consumeLoop, assertReading, goodItem]
        | ChanItem.recv (GoValue.otherVal n) => simp [consumeLoop, assertReading, goodItem]
        | ChanItem.closedRecv => simp [consumeLoop, assertReading, goodItem]
  · intro rs h
    subst h
    exact consumeLoop_fold rs lines

/-- Concrete check of C10: closing the channel makes the worker panic (it
does not `break`), and a pure `*Reading` schedule folds the merge. -/
theorem consume_break_unreachable_witness :
    (consumeLoop [] [ChanItem.closedRecv]).exit = LoopExit.panicked
    ∧ consumeLoop [] [readingItem (Reading.mk "k" 5 "t1" Counter)]
        = { lines := [("k", Reading.mk "k" 5 "t1" Counter)], exit := LoopExit.drained } :=
  ⟨(consume_break_unreachable [ChanItem.closedRecv] []).2.1.mpr (by decide),
   (consume_break_unreachable [readingItem (Reading.mk "k" 5 "t1" Counter)] []).2.2
      [Reading.mk "k" 5 "t1" Counter] rfl⟩

theorem getEntry_foldl_same_key (l : List Reading) (t : List (String × Reading))
    (acc : Reading) (k : String) (hl : ∀ x ∈ l, x.Key = k)
    (ht : getEntry t k = some acc) :
    getEntry (l.foldl applyReading t) k = some (l.foldl Reading.Accept acc) := by
  induction l generalizing t acc with
  | nil => simpa using ht
  | cons x rest ih =>
      have hx : x.Key = k := hl x (by simp)
      have hrest : ∀ y ∈ rest, y.Key = k := fun y hy => hl y (by simp [hy])
      have hstep : applyReading t x = setEntry t k (acc.Accept x) := by
        simp [applyReading, hx, ht]
      simp only [List.foldl_cons, hstep]
      exact ih (setEntry t k (acc.Accept x)) (acc.Accept x) hrest
        (getEntry_setEntry_self t k (acc.Accept x))

/-- C2: running the consumer loop on a sequence of readings for a single
key, the stored value for that key is the left-fold of `Accept` over the
sequence, the first submitted reading taken verbatim as initial
accumulator. -/
theorem table_is_left_fold (r : Reading) (rest : List Reading) (k : String)
    (h : ∀ x ∈ r :: rest, x.Key = k) :
    getEntry (consumeLoop [] ((r :: rest).map readingItem)).lines k
      = some (rest.foldl Reading.Accept r) := by
  rw [consumeLoop_fold]
  have hr : r.Key = k := h r (by simp)
  have hrest : ∀ y ∈ rest, y.Key = k := fun y hy => h y (by simp [hy])
  have hfirst : applyReading [] r = [(k, r)] := by
    simp [applyReading, getEntry, setEntry, hr]
  simp only [List.foldl_cons, hfirst]
  exact getEntry_foldl_same_key rest [(k, r)] r k hrest (by simp [getEntry])

/-- Concrete check of C2: `Counter 5` then `Counter 3` on a fresh key stores
value `8` with the second submission's time. -/
theorem table_is_left_fold_witness :
    getEntry (consumeLoop []
        ([Reading.mk "k" 5 "t1" Counter, Reading.mk "k" 3 "t2" Counter].map readingItem)).lines "k"
      = some (Reading.mk "k" (5 + 3) "t2" Counter) :=
  table_is_left_fold (Reading.mk "k" 5 "t1" Counter) [Reading.mk "k" 3 "t2" Counter] "k"
    (by decide)

/-- The fields of `metav1.ListOptions` that `NewWatcher` sets.  As in Go,
`ResourceVersion` is a plain string whose zero value `""` means "no resume
token, start from the capability's default". -/
structure ListOptions where
  Watch : Bool
  AllowWatchBookmarks : Bool
  ResourceVersion : String
deriving DecidableEq

/-- The options built at the top of the reconnect loop:
`{Watch: true, AllowWatchBookmarks: true}` and, only when the tracked
bookmark is nonempty, `listOptions.ResourceVersion = bookmark`. -/
def mkWatchOptions (bookmark : String) : ListOptions :=
  let opts : ListOptions := { Watch := true, AllowWatchBookmarks := true, ResourceVersion := "" }
  if bookmark ≠ "" then { opts with ResourceVersion := bookmark } else opts

/-- One event delivered on the watch result channel: a bookmark (carrying
the `ResourceVersion` the conversion to a `Pod` yields), or a data event
(`ok` is whether `watcher.Convert` succeeds; the object is printed either
way, after an error log when it failed). -/
inductive WatchEvent
  | bookmark (rv : String)
  | data (ok : Bool) (obj : Nat)
deriving DecidableEq

/-- Observable actions of the watch goroutine. -/
inductive WAction
  | connect (opts : ListOptions)
  | logError
  | setBookmark (rv : String)
  | emitData (obj : Nat)
  | sleep (n : Nat)
deriving DecidableEq

/-- Actions of the inner streaming loop for a list of events. -/
def eventActions : List WatchEvent → List WAction
  | [] => []
  | WatchEvent.bookmark rv :: rest => WAction.setBookmark rv :: eventActions rest
  | WatchEvent.data ok obj :: rest =>
      (if ok then [] else [WAction.logError]) ++ WAction.emitData obj :: eventActions rest

/-- Value of the `bookmark` variable after the inner loop processes the
events, starting from `b`. -/
def eventsBookmark (b : String) : List WatchEvent → String
  | [] => b
  | WatchEvent.bookmark rv :: rest => eventsBookmark rv rest
  | WatchEvent.data _ _ :: rest => eventsBookmark b rest

/-- The environment's behaviour for one iteration of the reconnect loop:
either `watcher.Watch` returns an error, or a session delivers some events
and then ends — by the peer closing the result channel (`shutdown = false`)
or by a signal on the `close` channel (`shutdown = true`, setting `done`). -/
inductive Round
  | connectFail
  | session (events : List WatchEvent) (shutdown : Bool)
deriving DecidableEq

/-- The reconnect loop of `NewWatcher` on a finite schedule of rounds:
build options (resume token included only when a bookmark is held), attempt
the connection, stream, and sleep 2 time units at the bottom of every
iteration before the next attempt. -/
def watchRun (bookmark : String) : List Round → List WAction
  | [] => []
  | Round.connectFail :: rest =>
      WAction.connect (mkWatchOptions bookmark) :: WAction.logError ::
        WAction.sleep 2 :: watchRun bookmark rest
  | Round.session events shutdown :: rest =>
      WAction.connect (mkWatchOptions bookmark) ::
        (eventActions events ++ WAction.sleep 2 ::
          (if shutdown then [] else watchRun (eventsBookmark bookmark events) rest))

/-- Walk a trace tracking the last observed resume token (updated at each
`setBookmark`, i.e. at each observed bookmark event), and pair every
connect attempt with the token last observed before it; the initial token
is `b` (`""` at process start: nothing observed yet). -/
def tracked (b : String) : List WAction → List (String × ListOptions)
  | [] => []
  | WAction.connect o :: rest => (b, o) :: tracked b rest
  | WAction.setBookmark rv :: rest => tracked rv rest
  | WAction.logError :: rest => tracked b rest
  | WAction.emitData _ :: rest => tracked b rest
  | WAction.sleep _ :: rest => tracked b rest

theorem mkWatchOptions_eq (b : String) :
    mkWatchOptions b = { Watch := true, AllowWatchBookmarks := true, ResourceVersion := b } := by
  by_cases h : b = "" <;> simp [mkWatchOptions, h]

theorem tracked_eventActions (ev : List WatchEvent) (b : String) (l : List WAction) :
    tracked b (eventActions ev ++ l) = tracked (eventsBookmark b ev) l := by
  induction ev generalizing b with
  | nil => simp [eventActions, eventsBookmark]
  | cons e rest ih =>
      match e with
      | WatchEvent.bookmark rv => simp [eventActions, eventsBookmark, tracked, ih]
      | WatchEvent.data ok obj =>
          cases ok <;> simp [eventActions, eventsBookmark, tracked, ih]

theorem tracked_watchRun (script : List Round) : ∀ (b : String) (p : String × ListOptions),
    p ∈ tracked b (watchRun b script) →
    p.2 = { Watch := true, AllowWatchBookmarks := true, ResourceVersion := p.1 } := by
  induction script with
  | nil => intro b p hp; simp [watchRun, tracked] at hp
  | cons r rest ih =>
      intro b p hp
      match r with
      | Round.connectFail =>
          simp only [watchRun, tracked, List.mem_cons] at hp
          rcases hp with h | h
          · subst h; simpa using mkWatchOptions_eq b
          · exact ih b p h
      | Round.session ev sd =>
          cases sd with
          | true =>
              simp [watchRun, tracked, tracked_eventActions] at hp
              subst hp
              simpa using mkWatchOptions_eq b
          | false =>
              simp only [watchRun, tracked, List.mem_cons] at hp
              rw [tracked_eventActions] at hp
              simp only [Bool.false_eq_true, if_false, tracked] at hp
              rcases hp with h | h
              · subst h; simpa using mkWatchOptions_eq b
              · exact ih (eventsBookmark b ev) p h

/-- C5: in the reconnect loop, every connect attempt carries
`Watch = true`, `AllowWatchBookmarks = true`, and a `ResourceVersion` equal
to the last resume token observed before the attempt — which is the Go zero
value `""` (the capability's default, no token) for every attempt made
before any bookmark event, since the tracking starts at `""`. -/
theorem watch_resume_bookmark (script : List Round) (p : String × ListOptions)
    (hp : p ∈ tracked "" (watchRun "" script)) :
    p.2.ResourceVersion = p.1 ∧ p.2.Watch = true ∧ p.2.AllowWatchBookmarks = true := by
  have h := tracked_watchRun script "" p hp
  rw [h]
  exact ⟨rfl, rfl, rfl⟩

/-- Concrete check of C5: after a session that delivered bookmark `rv7` and
was closed by the peer, the next attempt's options carry `rv7`. -/
theorem watch_resume_bookmark_witness :
    (mkWatchOptions "rv7").ResourceVersion = "rv7"
    ∧ (mkWatchOptions "rv7").Watch = true
    ∧ (mkWatchOptions "rv7").AllowWatchBookmarks = true :=
  watch_resume_bookmark
    [Round.session [WatchEvent.bookmark "rv7"] false, Round.connectFail]
    ("rv7", mkWatchOptions "rv7") (by decide)

def isConnect : WAction → Bool
  | WAction.connect _ => true
  | _ => false

def isSleep : WAction → Bool
  | WAction.sleep _ => true
  | _ => false

def isSleepTwo : WAction → Bool
  | WAction.sleep 2 => true
  | _ => false

def countConnects (l : List WAction) : Nat := (l.filter isConnect).length

def countSleeps (l : List WAction) : Nat := (l.filter isSleep).length

/-- `sleepGuard prev l`: walking `l` with `prev` as the action just before
it, every connect attempt is immediately preceded by a 2-unit sleep. -/
def sleepGuard : WAction → List WAction → Bool
  | _, [] => true
  | prev, a :: rest => (if isConnect a then isSleepTwo prev else true) && sleepGuard a rest

/-- Every connect attempt in the trace, except a connect at the very
start, happens immediately after a 2-unit sleep. -/
def sleepGuarded : List WAction → Bool
  | [] => true
  | a :: rest => sleepGuard a rest

def roundShutdown : Round → Bool
  | Round.connectFail => false
  | Round.session _ sd => sd

theorem eventActions_filter_connect (ev : List WatchEvent) :
    (eventActions ev).filter isConnect = [] := by
  induction ev with
  | nil => simp [eventActions]
  | cons e rest ih =>
      match e with
      | WatchEvent.bookmark rv => simp [eventActions, isConnect, ih]
      | WatchEvent.data ok obj => cases ok <;> simp [eventActions, isConnect, ih]

theorem eventActions_filter_sleep (ev : List WatchEvent) :
    (eventActions ev).filter isSleep = [] := by
  induction ev with
  | nil => simp [eventActions]
  | cons e rest ih =>
      match e with
      | WatchEvent.bookmark rv => simp [eventActions, isSleep, ih]
      | WatchEvent.data ok obj => cases ok <;> simp [eventActions, isSleep, ih]

theorem sleep_not_mem_eventActions (ev : List WatchEvent) (n : Nat) :
    WAction.sleep n ∉ eventActions ev := by
  intro hmem
  have h : WAction.sleep n ∈ (eventActions ev).filter isSleep :=
    List.mem_filter.mpr ⟨hmem, by simp [isSleep]⟩
  rw [eventActions_filter_sleep] at h
  exact List.not_mem_nil _ h

theorem sleepGuard_eventActions (ev : List WatchEvent) (tail : List WAction)
    (h : sleepGuard (WAction.sleep 2) tail = true) :
    ∀ prev, sleepGuard prev (eventActions ev ++ WAction.sleep 2 :: tail) = true := by
  induction ev with
  | nil => intro prev; simp [eventActions, sleepGuard, isConnect, h]
  | cons e rest ih =>
      intro prev
      match e with
      | WatchEvent.bookmark rv =>
          simp only [eventActions, List.cons_append, sleepGuard, isConnect]
          simpa using ih (WAction.setBookmark rv)
      | WatchEvent.data ok obj =>
          cases ok with
          | true =>
              simp only [eventActions, if_pos rfl, List.nil_append, List.cons_append,
                sleepGuard, isConnect]
              simpa using ih (WAction.emitData obj)
          | false =>
              simp only [eventActions, Bool.false_eq_true, if_false, List.cons_append,
                List.nil_append, sleepGuard, isConnect]
              simpa using ih (WAction.emitData obj)

theorem sleepGuard_watchRun (script : List Round) : ∀ b,
    sleepGuard (WAction.sleep 2) (watchRun b script) = true := by
  induction script with
  | nil => intro b; simp [watchRun, sleepGuard]
  | cons r rest ih =>
      intro b
      match r with
      | Round.connectFail =>
          simp only [watchRun, sleepGuard, isConnect, isSleepTwo]
          simpa using ih b
      | Round.session ev sd =>
          simp only [watchRun, sleepGuard, isConnect, isSleepTwo]
          have htail : sleepGuard (WAction.sleep 2)
              (if sd then [] else watchRun (eventsBookmark b ev) rest) = true := by
            cases sd with
            | true => simp [sleepGuard]
            | false => simpa using ih (eventsBookmark b ev)
          simpa using sleepGuard_eventActions ev _ htail (WAction.connect (mkWatchOptions b))

theorem sleep_mem_watchRun (script : List Round) : ∀ b n,
    WAction.sleep n ∈ watchRun b script → n = 2 := by
  induction script with
  | nil => intro b n h; simp [watchRun] at h
  | cons r rest ih =>
      intro b n h
      match r with
      | Round.connectFail =>
          simp only [watchRun, List.mem_cons] at h
          rcases h with h | h | h | h
          · exact absurd h (by simp)
          · exact absurd h (by simp)
          · injection h
          · exact ih b n h
      | Round.session ev sd =>
          simp only [watchRun, List.mem_cons, List.mem_append] at h
          rcases h with h | h | h | h
          · exact absurd h (by simp)
          · exact absurd h (sleep_not_mem_eventActions ev n)
          · injection h
          · cases sd with
            | true => simp at h
            | false =>
                simp only [Bool.false_eq_true, if_false] at h
                exact ih (eventsBookmark b ev) n h

theorem counts_watchRun (script : List Round) : ∀ b,
    countSleeps (watchRun b script) = countConnects (watchRun b script) := by
  induction script with
  | nil => intro b; simp [watchRun, countSleeps, countConnects]
  | cons r rest ih =>
      intro b
      match r with
      | Round.connectFail =>
          simp only [watchRun, countSleeps, countConnects, List.filter_cons]
          simp only [isSleep, isConnect]
          simpa [countSleeps, countConnects] using ih b
      | Round.session ev sd =>
          simp only [watchRun, countSleeps, countConnects, List.filter_cons,
            List.filter_append, eventActions_filter_connect, eventActions_filter_sleep]
          simp only [isSleep, isConnect]
          cases sd with
          | true => simp [List.filter_cons, isSleep, isConnect]
          | false =>
              simp only [Bool.false_eq_true, if_false, List.filter_cons, isSleep, isConnect]
              simpa [countSleeps, countConnects] using ih (eventsBookmark b ev)

theorem connects_watchRun (script : List Round) : ∀ b,
    (∀ r ∈ script, roundShutdown r = false) →
    countConnects (watchRun b script) = script.length := by
  induction script with
  | nil => intro b _; simp [watchRun, countConnects]
  | cons r rest ih =>
      intro b hsd
      have hr : roundShutdown r = false := hsd r (by simp)
      have hrest : ∀ x ∈ rest, roundShutdown x = false := fun x hx => hsd x (by simp [hx])
      match r with
      | Round.connectFail =>
          simp only [watchRun, countConnects, List.filter_cons, isConnect, List.length_cons]
          simpa [countConnects] using ih b hrest
      | Round.session ev sd =>
          have hsd0 : sd = false := by simpa [roundShutdown] using hr
          subst hsd0
          simp only [watchRun, Bool.false_eq_true, if_false, countConnects, List.filter_cons,
            List.filter_append, eventActions_filter_connect, isConnect, List.length_cons]
          simpa [countConnects] using ih (eventsBookmark b ev) hrest

/-- C6: in the reconnect loop every sleep in the trace is the fixed 2-unit
backoff (no exponential growth), every connect attempt other than the first
action of the trace comes immediately after that 2-unit wait, each iteration
performs exactly one wait per attempt, and on any schedule in which no round
ends through the shutdown signal the loop makes one connect attempt per
round — it retries indefinitely until shutdown. -/
theorem watch_fixed_backoff (b : String) (script : List Round) :
    (∀ n, WAction.sleep n ∈ watchRun b script → n = 2)
    ∧ sleepGuarded (watchRun b script) = true
    ∧ countSleeps (watchRun b script) = countConnects (watchRun b script)
    ∧ ((∀ r ∈ script, roundShutdown r = false) →
        countConnects (watchRun b script) = script.length) := by
  refine ⟨fun n h => sleep_mem_watchRun script b n h, ?_, counts_watchRun script b,
    connects_watchRun script b⟩
  have h := sleepGuard_watchRun script b
  match hEq : watchRun b script with
  | [] => simp [sleepGuarded]
  | a :: rest =>
      rw [hEq] at h
      simp only [sleepGuard, Bool.and_eq_true] at h
      simpa [sleepGuarded] using h.2

/-- Concrete check of C6: on a two-round schedule of failing connects the
loop sleeps only 2-unit intervals and attempts to connect twice. -/
theorem watch_fixed_backoff_witness :
    (2 = 2)
    ∧ countConnects (watchRun "" [Round.connectFail, Round.connectFail])
        = [Round.connectFail, Round.connectFail].length :=
  ⟨(watch_fixed_backoff "" [Round.connectFail, Round.connectFail]).1 2 (by decide),
   (watch_fixed_backoff "" [Round.connectFail, Round.connectFail]).2.2.2 (by decide)⟩

/-- Observable actions of the list-poller goroutine in `ShovelList`;
`send` is what the commented-out `sink <- v` would emit. -/
inductive LAction
  | logError
  | print (v : GoValue)
  | send (v : GoValue)
deriving DecidableEq

/-- One iteration of the poller's `select`: a tick whose `lister.List`
call fails (the slice is nil, so the range body never runs), a tick that
returns items, or a signal on the `close` channel. -/
inductive LRound
  | tickFail
  | tickOk (items : List GoValue)
  | closeSignal
deriving DecidableEq

/-- The poller loop of `ShovelList`: on each tick list once, log a
failure, print each returned item; the forwarding of items to the sink is
commented out in the source, so the loop emits no `send`. -/
def shovelRun : List LRound → List LAction
  | [] => []
  | LRound.tickFail :: rest => LAction.logError :: shovelRun rest
  | LRound.tickOk items :: rest => items.map LAction.print ++ shovelRun rest
  | LRound.closeSignal :: _ => []

/-- The values a trace pushes into the aggregation channel. -/
def sentValues : List LAction → List GoValue
  | [] => []
  | LAction.send v :: rest => v :: sentValues rest
  | LAction.logError :: rest => sentValues rest
  | LAction.print _ :: rest => sentValues rest

theorem sentValues_print_append (items : List GoValue) (l : List LAction) :
    sentValues (items.map LAction.print ++ l) = sentValues l := by
  induction items with
  | nil => simp
  | cons v rest ih => simpa [sentValues] using ih

theorem mem_sentValues_of_send (l : List LAction) (v : GoValue)
    (h : LAction.send v ∈ l) : v ∈ sentValues l := by
  induction l with
  | nil => simp at h
  | cons a rest ih =>
      rcases List.mem_cons.mp h with h0 | h0
      · subst h0; simp [sentValues]
      · match a with
        | LAction.send w => simp [sentValues, ih h0]
        | LAction.logError => simpa [sentValues] using ih h0
        | LAction.print w => simpa [sentValues] using ih h0

theorem shovelRun_sends_nothing (script : List LRound) :
    sentValues (shovelRun script) = [] := by
  induction script with
  | nil => simp [shovelRun, sentValues]
  | cons r rest ih =>
      match r with
      | LRound.tickFail => simpa [shovelRun, sentValues] using ih
      | LRound.tickOk items =>
          simpa [shovelRun, sentValues_print_append] using ih
      | LRound.closeSignal => simp [shovelRun, sentValues]

/-- C7: the list poller never submits anything to the aggregation table:
on every schedule of ticks, list results and close signals, the set of
values sent on the sink channel is empty, no action of the trace is a
`send`, and feeding exactly the poller's sends to the table's consumer
loop leaves every table unchanged. -/
theorem list_poller_never_submits (script : List LRound) :
    sentValues (shovelRun script) = []
    ∧ (∀ a ∈ shovelRun script, ∀ v, a ≠ LAction.send v)
    ∧ (∀ t, consumeLoop t ((sentValues (shovelRun script)).map ChanItem.recv)
        = { lines := t, exit := LoopExit.drained }) := by
  refine ⟨shovelRun_sends_nothing script, ?_, ?_⟩
  · intro a ha v hEq
    subst hEq
    have hv := mem_sentValues_of_send _ v ha
    rw [shovelRun_sends_nothing script] at hv
    exact List.not_mem_nil _ hv
  · intro t
    rw [shovelRun_sends_nothing script]
    simp [consumeLoop]

/-- Concrete check of C7: a successful tick only prints. -/
theorem list_poller_never_submits_witness :
    LAction.print GoValue.nilVal ≠ LAction.send GoValue.nilVal :=
  (list_poller_never_submits [LRound.tickOk [GoValue.nilVal]]).2.1
    (LAction.print GoValue.nilVal) (by decide) GoValue.nilVal

/-- Left-pad a natural to six digits, for the fractional part of `%f`. -/
def pad6 (n : Nat) : String :=
  let s := toString n
  String.mk (List.replicate (6 - s.length) '0') ++ s

/-- `|q|` expressed in millionths, rounded to nearest with ties to even —
the decimal rounding `fmt %f` performs at its default precision of six. -/
def roundedMicros (q : ℚ) : Nat :=
  let a := q.num.natAbs * 1000000
  let d := q.den
  let fl := a / d
  let rem := a % d
  if d < 2 * rem then fl + 1
  else if 2 * rem < d then fl
  else if fl % 2 = 0 then fl else fl + 1

/-- `fmt.Sprintf("%f", v)`: fixed-point notation, six digits after the
point, leading minus sign for negative values. -/
def formatFixed6 (q : ℚ) : String :=
  let sign := if q.num < 0 then "-" else ""
  let n := roundedMicros q
  sign ++ toString (n / 1000000) ++ "." ++ pad6 (n % 1000000)

/-- The handler returned by `MetricsHolder.CreateHandler`: for each table
entry in iteration order it writes the key, a space, the `%f`-formatted
value and a newline into the response. -/
def CreateHandler (lines : List (String × Reading)) : String :=
  lines.foldl (fun acc kv => acc ++ kv.1 ++ " " ++ formatFixed6 kv.2.Value ++ "\n") ""

/-- One `<key> <value>\n` line per entry (the spec's description of the
response body). -/
def renderLines : List (String × Reading) → String
  | [] => ""
  | kv :: rest => kv.1 ++ " " ++ formatFixed6 kv.2.Value ++ "\n" ++ renderLines rest

theorem createHandler_eq_renderLines : ∀ lines, CreateHandler lines = renderLines lines := by
  have h : ∀ (l : List (String × Reading)) (s : String),
      l.foldl (fun acc kv => acc ++ kv.1 ++ " " ++ formatFixed6 kv.2.Value ++ "\n") s
        = s ++ renderLines l := by
    intro l
    induction l with
    | nil => intro s; simp [renderLines, String.append_empty]
    | cons kv rest ih =>
        intro s
        rw [List.foldl_cons, ih]
        simp [renderLines, String.append_assoc]
  intro lines
  simpa [CreateHandler, String.empty_append] using h lines ""

def readingA : Reading := { Key := "a", Value := 1, Time := "", Typ := Instant }

def readingB : Reading := { Key := "b", Value := 2, Time := "", Typ := Instant }

/-- C8: the exposition handler writes exactly one `<key> <value>\n` line
per table entry, the value in six-decimal fixed-point notation; an empty
table gives an empty body, and the table `{a: 1.0, b: 2.0}` gives exactly
the lines `a 1.000000` and `b 2.000000`, in either iteration order. -/
theorem exposition_lines :
    CreateHandler [] = ""
    ∧ (∀ lines, CreateHandler lines = renderLines lines)
    ∧ CreateHandler [("a", readingA), ("b", readingB)] = "a 1.000000\nb 2.000000\n"
    ∧ CreateHandler [("b", readingB), ("a", readingA)] = "b 2.000000\na 1.000000\n" :=
  ⟨rfl, createHandler_eq_renderLines, by decide, by decide⟩

/-- `k="v"` for one label pair, as `render` writes it. -/
def renderPair (p : String × String) : String := p.1 ++ "=\"" ++ p.2 ++ "\""

/-- One step of `render`'s label loop: the `first` flag suppresses the
comma before the first pair. -/
def renderStep (acc : String × Bool) (p : String × String) : String × Bool :=
  if acc.2 then (acc.1 ++ renderPair p, false)
  else (acc.1 ++ ", " ++ renderPair p, false)

set_option linter.unusedVariables false in
/-- The unused helper `render(name, value, time, labels...)`: a brace,
the comma-separated label pairs of all maps, `"} "`, the value, a space
and the decimal timestamp.  (The `name` parameter appears nowhere in the
body.) -/
def render (name : String) (value : String) (time : Int)
    (labels : List (List (String × String))) : String :=
  (labels.foldl (fun acc l => l.foldl renderStep acc) ("\x7b", true)).1
    ++ "\x7d " ++ value ++ " " ++ toString time

/-- Comma-separated `k="v"` list, as the claim describes the label set. -/
def joinPairs : List (String × String) → String
  | [] => ""
  | [p] => renderPair p
  | p :: q :: rest => renderPair p ++ ", " ++ joinPairs (q :: rest)

/-- Modelled from the claim's words: the standard exposition line format
`name{labels} value timestamp`, the metric name included. -/
def specRenderLine (name value : String) (time : Int)
    (pairs : List (String × String)) : String :=
  name ++ "\x7b" ++ joinPairs pairs ++ "\x7d " ++ value ++ " " ++ toString time

def joinFalse : List (String × String) → String
  | [] => ""
  | p :: rest => ", " ++ renderPair p ++ joinFalse rest

theorem joinPairs_eq_joinFalse (p : String × String) (rest : List (String × String)) :
    joinPairs (p :: rest) = renderPair p ++ joinFalse rest := by
  induction rest generalizing p with
  | nil => simp [joinPairs, joinFalse, String.append_empty]
  | cons q t ih => simp [joinPairs, joinFalse, ih, String.append_assoc]

theorem foldl_renderStep_false (pairs : List (String × String)) : ∀ s : String,
    (pairs.foldl renderStep (s, false)).1 = s ++ joinFalse pairs := by
  induction pairs with
  | nil => intro s; simp [joinFalse, String.append_empty]
  | cons p rest ih =>
      intro s
      simp only [List.foldl_cons, renderStep, if_neg (by simp : ¬ (false = true))]
      simp [ih, joinFalse, String.append_assoc]

theorem foldl_renderStep_true (pairs : List (String × String)) (s : String) :
    (pairs.foldl renderStep (s, true)).1 = s ++ joinPairs pairs := by
  match pairs with
  | [] => simp [joinPairs, String.append_empty]
  | p :: rest =>
      have hstep : renderStep (s, true) p = (s ++ renderPair p, false) := by
        simp [renderStep]
      rw [List.foldl_cons, hstep, foldl_renderStep_false rest, joinPairs_eq_joinFalse,
        String.append_assoc]

theorem nested_foldl_renderStep (labels : List (List (String × String))) :
    ∀ acc : String × Bool,
    labels.foldl (fun acc l => l.foldl renderStep acc) acc
      = (labels.flatten).foldl renderStep acc := by
  induction labels with
  | nil => intro acc; simp
  | cons l rest ih => intro acc; simp [List.foldl_append, ih]

/-- C9 counterexample: at `name = "foo"`, empty labels, value `"1"` and
timestamp `0`, `render` does not produce the claimed
`name{labels} value timestamp` line: the metric name is missing. -/
theorem render_drops_name :
    render "foo" "1" 0 [] ≠ specRenderLine "foo" "1" 0 [] := by decide

/-- C9 amended: `render` produces `{labels} value timestamp` — the
brace-delimited comma-separated `k="v"` label set of all label maps, the
value and the decimal timestamp — with the metric name omitted: the
`name` argument never affects the result. -/
theorem render_label_line (name name' value : String) (time : Int)
    (labels : List (List (String × String))) :
    render name value time labels
      = "\x7b" ++ joinPairs labels.flatten ++ "\x7d " ++ value ++ " " ++ toString time
    ∧ render name value time labels = render name' value time labels := by
  constructor
  · unfold render
    rw [nested_foldl_renderStep, foldl_renderStep_true]
  · rfl
